import Mathlib

set_option maxHeartbeats 1000000

/-!
Shallow embedding of `src/src/nix/flake.cc`: the flake output schema
validator (`CmdFlakeCheck::run` together with its helper checkers) and the
lock dependency tree walkers (`CmdFlakeListInputs::run` and
`CmdFlakeArchive::run`).

Values are modelled as already forced: the spec's invariant says forcing a
node is idempotent and deterministic for a given flake evaluation, so
`forceValue` is the identity here, while `forceAttrs` on a non attribute
set value still fails, as in the source.
-/

/-- Source position attached to attributes by the evaluator (`Pos`). -/
structure Pos where
  line : Nat
  column : Nat
deriving DecidableEq

/-- Nix expressions, as far as the checkers inspect them: `ExprLambda`
carries `matchAttrs` (the lambda pattern-matches an attribute set),
`formals->ellipsis`, the argument name `arg`, and a body expression.
Every other expression shape is `other`. -/
inductive Expr where
  | lam (matchAttrs : Bool) (ellipsis : Bool) (arg : String) (body : Expr)
  | other

/-- Forced nix values, as far as the validator inspects them.  An
attribute set carries its ordered attribute list (name, position, value);
a lambda mirrors the fields of the underlying `ExprLambda`
(`v.lambda.fun`).  `appDesc` is the app-descriptor case: the external
`App` constructor (outside this repository's `flake.cc`) succeeds exactly
on such values, exposing the decoded string context as
(drvPathS, outputName) pairs; this case is modelled from the spec
("a structured value exposing a list of string context references").
`str` is a string value and `other` covers every other kind. -/
inductive Value where
  | attrs (as : List (String × Pos × Value))
  | lam (matchAttrs : Bool) (ellipsis : Bool) (arg : String) (body : Expr)
  | str (s : String)
  | appDesc (context : List (String × String))
  | other

/-- One context frame added by `Error::addPrefix` in a `catch` block of
`flake.cc` ("while checking the derivation ... at ...", etc.). -/
inductive CtxFrame where
  | drv (attrPath : String) (pos : Pos)
  | app (attrPath : String) (pos : Pos)
  | overlay (attrPath : String) (pos : Pos)
  | module (attrPath : String) (pos : Pos)
  | hydra (attrPath : String) (pos : Pos)
  | nixosConfig (attrPath : String) (pos : Pos)
  | output (name : String)
deriving DecidableEq

/-- The base message of an error thrown by the checkers. -/
inductive ErrKind where
  | invalidSystem (system : String) (pos : Pos)
  | notADerivation (attrPath : String)
  | badDrvPath (attrPath : String)
  | expectedASet
  | overlayFinal
  | overlayPrev
  | moduleNotOpen
  | moduleBadKind
  | jobsetTopLevelDrv
  | toplevelNotDrv
  | attrNotFound (attr : String)
  | appNotParsable
deriving DecidableEq

/-- An in-flight exception: base message plus the context frames added so
far, outermost first (as they would be concatenated in the rendered
message). -/
structure Err where
  kind : ErrKind
  frames : List CtxFrame
deriving DecidableEq

/-- The effect of `e.addPrefix(...)` in a catch block: the new frame is
prepended in front of the frames already present. -/
def Err.addFrame (f : CtxFrame) (e : Err) : Err := ⟨e.kind, f :: e.frames⟩

/-- Wrap the outcome of a checker body in one more context frame, like a
`try { ... } catch (Error & e) { e.addPrefix(...); throw; }` block. -/
def wrapErr (f : CtxFrame) : Option Err → Option Err
  | none => none
  | some e => some (e.addFrame f)

/-- Lookup in an attribute set's binding list (`attrs->get`). -/
def attrLookup : List (String × Pos × Value) → String → Option Value
  | [], _ => none
  | (n, _, v) :: rest, a => if n = a then some v else attrLookup rest a

/-- Whether `forceAttrs` succeeds on the value. -/
def isAttrs : Value → Bool
  | .attrs _ => true
  | _ => false

/-- `EvalState::isDerivation`: an attribute set whose `type` attribute is
the string `"derivation"`. -/
def isDerivation : Value → Bool
  | .attrs as =>
    match attrLookup as "type" with
    | some (.str s) => s = "derivation"
    | _ => false
  | _ => false

/-- The `drvPath` attribute of a derivation value, when it is a string
(`DrvInfo::queryDrvPath`). -/
def getDrvPath : Value → Option String
  | .attrs as =>
    match attrLookup as "drvPath" with
    | some (.str s) => some s
    | _ => none
  | _ => none

/-- `checkSystemName` (flake.cc lines 226-230): a first-level key must
contain a hyphen; otherwise an error naming the key and its position is
thrown. -/
def checkSystemName (system : String) (pos : Pos) : Option Err :=
  if system.data.contains '-' then none
  else some ⟨.invalidSystem system pos, []⟩

/-- `checkDerivation` (flake.cc lines 232-243): `getDerivation` must
produce a derivation, whose `drvPath` is parsed as a store path; any
failure is rethrown with a "while checking the derivation" frame. -/
def checkDerivation (attrPath : String) (v : Value) (pos : Pos) :
    Except Err String :=
  if isDerivation v then
    match getDrvPath v with
    | some p => .ok p
    | none => .error ⟨.badDrvPath attrPath, [.drv attrPath pos]⟩
  else .error ⟨.notADerivation attrPath, [.drv attrPath pos]⟩

/-- Modelled from the spec: the external `App` constructor parses an app
descriptor or fails; on success it exposes the decoded string context of
the app as (drvPathS, outputName) pairs.  `App` and `decodeContext` are
not part of `flake.cc`. -/
def parseApp : Value → Except Err (List (String × String))
  | .appDesc ctx => .ok ctx
  | _ => .error ⟨.appNotParsable, []⟩

/-- Modelled from the spec: `StorePath::isDerivation` (external) decides
whether a context reference denotes a derivation, i.e. a `.drv` store
path. -/
def isDrvStorePath (p : String) : Bool := List.isSuffixOf ".drv".data p.data

/-- `checkApp` (flake.cc lines 247-260): parse the app descriptor and
collect, from its context, every reference with a non-empty output name
whose path is a derivation; a parse failure is rethrown with a "while
checking the app definition" frame. -/
def checkApp (attrPath : String) (v : Value) (pos : Pos) :
    List String × Option Err :=
  match parseApp v with
  | .ok ctx =>
    ((ctx.filter (fun i => i.2 ≠ "" && isDrvStorePath i.1)).map (·.1), none)
  | .error e => ([], some (e.addFrame (.app attrPath pos)))

/-- `checkOverlay` (flake.cc lines 262-276): the value must be a lambda
that does not pattern-match an attribute set and whose argument is
`final`; its body must itself be such a lambda with argument `prev`. -/
def checkOverlay (attrPath : String) (v : Value) (pos : Pos) : Option Err :=
  match v with
  | .lam ma _ arg body =>
    if ma || arg ≠ "final" then some ⟨.overlayFinal, [.overlay attrPath pos]⟩
    else
      match body with
      | .lam bma _ barg _ =>
        if bma || barg ≠ "prev" then
          some ⟨.overlayPrev, [.overlay attrPath pos]⟩
        else none
      | .other => some ⟨.overlayPrev, [.overlay attrPath pos]⟩
  | _ => some ⟨.overlayFinal, [.overlay attrPath pos]⟩

/-- `checkModule` (flake.cc lines 278-300): a lambda must pattern-match an
open attribute set; an attribute set has each member forced (forcing is
total in this model); anything else is an error. -/
def checkModule (attrPath : String) (v : Value) (pos : Pos) : Option Err :=
  match v with
  | .lam ma el _ _ =>
    if !ma || !el then some ⟨.moduleNotOpen, [.module attrPath pos]⟩ else none
  | .attrs _ => none
  | _ => some ⟨.moduleBadKind, [.module attrPath pos]⟩

/-- `findAlongAttrPath` (external helper used by
`checkNixOSConfiguration`): follow a chain of attribute selectors. -/
def findAlongAttrPath : List String → Value → Except Err Value
  | [], v => .ok v
  | a :: rest, v =>
    match v with
    | .attrs as =>
      match attrLookup as a with
      | some w => findAlongAttrPath rest w
      | none => .error ⟨.attrNotFound a, []⟩
    | _ => .error ⟨.expectedASet, []⟩

/-- `checkNixOSConfiguration` (flake.cc lines 324-337): the nested
attribute `config.system.build.toplevel` must exist and be a
derivation. -/
def checkNixOSConfiguration (attrPath : String) (v : Value) (pos : Pos) :
    Option Err :=
  wrapErr (.nixosConfig attrPath pos)
    (match findAlongAttrPath ["config", "system", "build", "toplevel"] v with
     | .error e => some e
     | .ok top =>
       if !isAttrs top then some ⟨.expectedASet, []⟩
       else if !isDerivation top then some ⟨.toplevelNotDrv, []⟩
       else none)

mutual

/-- `checkHydraJobs` (flake.cc lines 302-322): force the value to an
attribute set, reject a derivation at this level, then walk the
attributes, recursing into every non-derivation attribute set; every
error that escapes this invocation gains a "while checking the Hydra
jobset" frame naming this invocation's path and position. -/
def checkHydraJobs (attrPath : String) (v : Value) (pos : Pos) : Option Err :=
  wrapErr (.hydra attrPath pos)
    (match v with
     | .attrs as =>
       if isDerivation (.attrs as) then some ⟨.jobsetTopLevelDrv, []⟩
       else checkHydraJobsAttrs attrPath as
     | _ => some ⟨.expectedASet, []⟩)

/-- The attribute loop inside `checkHydraJobs`: each attribute value is
forced to an attribute set and, when it is not a derivation, recursed
into under the extended attribute path. -/
def checkHydraJobsAttrs (attrPath : String) :
    List (String × Pos × Value) → Option Err
  | [] => none
  | (n, p, w) :: rest =>
    if !isAttrs w then some ⟨.expectedASet, []⟩
    else if isDerivation w then checkHydraJobsAttrs attrPath rest
    else
      match checkHydraJobs (attrPath ++ "." ++ n) w p with
      | some e => some e
      | none => checkHydraJobsAttrs attrPath rest

end

/-- The inner loop of the `checks` branch (flake.cc lines 359-365): check
each second-level attribute as a derivation and record its path in
`drvPaths` when the first-level key equals the current system. -/
def checksInner (thisSystem sysName : String) :
    List (String × Pos × Value) → List String × Option Err
  | [] => ([], none)
  | (n2, p2, v2) :: rest =>
    match checkDerivation ("checks." ++ sysName ++ "." ++ n2) v2 p2 with
    | .error e => ([], some e)
    | .ok p =>
      let here := if sysName = thisSystem then [p] else []
      let r := checksInner thisSystem sysName rest
      (here ++ r.1, r.2)

/-- The outer loop of the `checks` branch (flake.cc lines 356-366):
per first-level attribute, check the system name, force the value to an
attribute set and run the inner loop; artifacts collected before an
error are kept (the `drvPaths` vector persists). -/
def checksSystems (thisSystem : String) :
    List (String × Pos × Value) → List String × Option Err
  | [] => ([], none)
  | (sysName, pos, v) :: rest =>
    match checkSystemName sysName pos with
    | some e => ([], some e)
    | none =>
      match v with
      | .attrs inner =>
        match checksInner thisSystem sysName inner with
        | (arts, some e) => (arts, some e)
        | (arts, none) =>
          let r := checksSystems thisSystem rest
          (arts ++ r.1, r.2)
      | _ => ([], some ⟨.expectedASet, []⟩)

/-- The inner loop of the `packages` branch (flake.cc lines 374-377):
each second-level attribute is checked as a derivation and the resulting
path is discarded. -/
def packagesInner (sysName : String) :
    List (String × Pos × Value) → Option Err
  | [] => none
  | (n2, p2, v2) :: rest =>
    match checkDerivation ("packages." ++ sysName ++ "." ++ n2) v2 p2 with
    | .error e => some e
    | .ok _ => packagesInner sysName rest

/-- The outer loop of the `packages` branch (flake.cc lines 371-378). -/
def packagesSystems : List (String × Pos × Value) → Option Err
  | [] => none
  | (sysName, pos, v) :: rest =>
    match checkSystemName sysName pos with
    | some e => some e
    | none =>
      match v with
      | .attrs inner =>
        match packagesInner sysName inner with
        | some e => some e
        | none => packagesSystems rest
      | _ => some ⟨.expectedASet, []⟩

/-- The inner loop of the `apps` branch (flake.cc lines 386-389). -/
def appsInner (sysName : String) :
    List (String × Pos × Value) → List String × Option Err
  | [] => ([], none)
  | (n2, p2, v2) :: rest =>
    match checkApp ("apps." ++ sysName ++ "." ++ n2) v2 p2 with
    | (_, some e) => ([], some e)
    | (arts, none) =>
      let r := appsInner sysName rest
      (arts ++ r.1, r.2)

/-- The outer loop of the `apps` branch (flake.cc lines 383-390). -/
def appsSystems : List (String × Pos × Value) → List String × Option Err
  | [] => ([], none)
  | (sysName, pos, v) :: rest =>
    match checkSystemName sysName pos with
    | some e => ([], some e)
    | none =>
      match v with
      | .attrs inner =>
        match appsInner sysName inner with
        | (arts, some e) => (arts, some e)
        | (arts, none) =>
          let r := appsSystems rest
          (arts ++ r.1, r.2)
      | _ => ([], some ⟨.expectedASet, []⟩)

/-- The `defaultPackage` / `devShell` loop (flake.cc lines 393-401): one
level of system keys, each value checked as a derivation (result
discarded); `catName` is the output name used in the attribute path. -/
def singleDrvSystems (catName : String) :
    List (String × Pos × Value) → Option Err
  | [] => none
  | (sysName, pos, v) :: rest =>
    match checkSystemName sysName pos with
    | some e => some e
    | none =>
      match checkDerivation (catName ++ "." ++ sysName) v pos with
      | .error e => some e
      | .ok _ => singleDrvSystems catName rest

/-- The `defaultApp` loop (flake.cc lines 403-411): one level of system
keys, each value checked as an app. -/
def defaultAppSystems : List (String × Pos × Value) → List String × Option Err
  | [] => ([], none)
  | (sysName, pos, v) :: rest =>
    match checkSystemName sysName pos with
    | some e => ([], some e)
    | none =>
      match checkApp ("defaultApp." ++ sysName) v pos with
      | (_, some e) => ([], some e)
      | (arts, none) =>
        let r := defaultAppSystems rest
        (arts ++ r.1, r.2)

/-- The `legacyPackages` loop (flake.cc lines 413-419): only the system
name of each first-level key is checked. -/
def legacySystems : List (String × Pos × Value) → Option Err
  | [] => none
  | (sysName, pos, _) :: rest =>
    match checkSystemName sysName pos with
    | some e => some e
    | none => legacySystems rest

/-- The `overlays` loop (flake.cc lines 424-429). -/
def overlaysLoop : List (String × Pos × Value) → Option Err
  | [] => none
  | (n, p, v) :: rest =>
    match checkOverlay ("overlays." ++ n) v p with
    | some e => some e
    | none => overlaysLoop rest

/-- The `nixosModules` loop (flake.cc lines 434-439). -/
def modulesLoop : List (String × Pos × Value) → Option Err
  | [] => none
  | (n, p, v) :: rest =>
    match checkModule ("nixosModules." ++ n) v p with
    | some e => some e
    | none => modulesLoop rest

/-- The `nixosConfigurations` loop (flake.cc lines 441-446). -/
def configsLoop : List (String × Pos × Value) → Option Err
  | [] => none
  | (n, p, v) :: rest =>
    match checkNixOSConfiguration ("nixosConfigurations." ++ n) v p with
    | some e => some e
    | none => configsLoop rest

/-- The body of the `enumerateOutputs` callback (flake.cc lines 347-457):
dispatch on the output name, run the matching category checker, and wrap
any escaping error in a "while checking flake output" frame.  An unknown
output name only produces a warning (no error, no artifacts).  The first
component is the list of store paths appended to `drvPaths` by this
category. -/
def checkOneOutput (thisSystem name : String) (v : Value) (pos : Pos) :
    List String × Option Err :=
  let core : List String × Option Err :=
    if name = "checks" then
      match v with
      | .attrs as => checksSystems thisSystem as
      | _ => ([], some ⟨.expectedASet, []⟩)
    else if name = "packages" then
      match v with
      | .attrs as => ([], packagesSystems as)
      | _ => ([], some ⟨.expectedASet, []⟩)
    else if name = "apps" then
      match v with
      | .attrs as => appsSystems as
      | _ => ([], some ⟨.expectedASet, []⟩)
    else if name = "defaultPackage" ∨ name = "devShell" then
      match v with
      | .attrs as => ([], singleDrvSystems name as)
      | _ => ([], some ⟨.expectedASet, []⟩)
    else if name = "defaultApp" then
      match v with
      | .attrs as => defaultAppSystems as
      | _ => ([], some ⟨.expectedASet, []⟩)
    else if name = "legacyPackages" then
      match v with
      | .attrs as => ([], legacySystems as)
      | _ => ([], some ⟨.expectedASet, []⟩)
    else if name = "overlay" then ([], checkOverlay name v pos)
    else if name = "overlays" then
      match v with
      | .attrs as => ([], overlaysLoop as)
      | _ => ([], some ⟨.expectedASet, []⟩)
    else if name = "nixosModule" then ([], checkModule name v pos)
    else if name = "nixosModules" then
      match v with
      | .attrs as => ([], modulesLoop as)
      | _ => ([], some ⟨.expectedASet, []⟩)
    else if name = "nixosConfigurations" then
      match v with
      | .attrs as => ([], configsLoop as)
      | _ => ([], some ⟨.expectedASet, []⟩)
    else if name = "hydraJobs" then ([], checkHydraJobs name v pos)
    else ([], none)
  (core.1, wrapErr (.output name) core.2)

/-- The `enumerateOutputs` loop of `CmdFlakeCheck::run` (flake.cc lines
345-458 with 133-145): the callback is invoked per top-level output in
order; an exception thrown by the callback propagates out of the loop, so
later outputs are not visited, while artifacts already pushed to
`drvPaths` persist. -/
def validateOutputs (thisSystem : String) :
    List (String × Pos × Value) → List String × Option Err
  | [] => ([], none)
  | (name, pos, v) :: rest =>
    match checkOneOutput thisSystem name v pos with
    | (arts, some e) => (arts, some e)
    | (arts, none) =>
      let r := validateOutputs thisSystem rest
      (arts ++ r.1, r.2)

/-- The observable outcome of `CmdFlakeCheck::run`: the read-only mode
set at entry, the batch-build invocations performed, and the error that
escaped the run, if any. -/
structure RunResult where
  readOnlyMode : Bool
  buildCalls : List (List String)
  err : Option Err
deriving DecidableEq

/-- `CmdFlakeCheck::run` (flake.cc lines 219-465): set
`settings.readOnlyMode = !build` before evaluating, validate all outputs
(aborting at the first escaping error), and, when the run survives, call
`store->buildPaths(drvPaths)` once iff `build` is set and `drvPaths` is
non-empty. -/
def flakeCheckRun (build : Bool) (thisSystem : String)
    (outputs : List (String × Pos × Value)) : RunResult :=
  let r := validateOutputs thisSystem outputs
  { readOnlyMode := !build
    buildCalls :=
      match r.2 with
      | some _ => []
      | none => if build && !r.1.isEmpty then [r.1] else []
    err := r.2 }

/-- A locked lock-file node (`LockedNode`): a resolved reference plus the
ordered mapping from input name to child node.  Sharing a child between
two parents is expressed by the same node value appearing under both.
The ordered-list representation of `inputs` is modelled from the spec
("insertion order preserved for display"); the map type itself is not
part of `flake.cc`. -/
inductive LNode where
  | mk (lockedRef : String) (inputs : List (String × LNode))

/-- The resolved reference of a locked node. -/
def LNode.lockedRef : LNode → String
  | .mk r _ => r

/-- The ordered input map of a locked node. -/
def LNode.inputs : LNode → List (String × LNode)
  | .mk _ is => is

/-- Size bound used by the termination proofs of the traversals. -/
theorem LNode.sizeOf_inputs_lt (n : LNode) : sizeOf n.inputs < sizeOf n := by
  cases n with
  | mk r is => simp [LNode.inputs]

/-- Modelled from the spec: `LockedNode::computeStorePath` (external)
computes the content-addressed store path of a node, deterministically
from its resolved reference. -/
def computeStorePath (n : LNode) : String := "/nix/store/" ++ n.lockedRef

/-- `StorePathSet::insert`: adding a path to the result set is a no-op
when the path is already present. -/
def insertPath (acc : List String) (p : String) : List String :=
  if p ∈ acc then acc else acc ++ [p]

/-- The `traverse` lambda of `CmdFlakeArchive::run` (flake.cc lines
649-665), restricted to its effect on `sources`: per input, insert the
child's computed store path and recurse into the child. -/
def collectList : List (String × LNode) → List String → List String
  | [], acc => acc
  | (_, c) :: rest, acc =>
    collectList rest (collectList c.inputs (insertPath acc (computeStorePath c)))
termination_by l _ => sizeOf l
decreasing_by
  all_goals
    have h := LNode.sizeOf_inputs_lt c
    simp at h ⊢
    try omega

/-- `CmdFlakeArchive::run` on `sources`: the flake's own source path is
inserted first (flake.cc line 644), then the lock DAG is traversed from
the root. -/
def archiveRun (rootSrcPath : String) (root : LNode) : List String :=
  collectList root.inputs (insertPath [] rootSrcPath)

/-- The tree-drawing connector strings (from the logging header). -/
def treeConn : String := "├───"

/-- Connector for the last sibling. -/
def treeLast : String := "└───"

/-- Continuation line for a non-last sibling's subtree. -/
def treeLine : String := "│   "

/-- Blank continuation for the last sibling's subtree. -/
def treeNull : String := "    "

/-- The `recurse` lambda of `CmdFlakeListInputs::run` (flake.cc lines
184-194): per input, emit one line — modelled as the triple of the three
format arguments (prefix with connector, input name, locked reference) —
then recurse with the extended prefix. -/
def printLines : List (String × LNode) → String → List (String × String × String)
  | [], _ => []
  | (nm, c) :: rest, pfx =>
    (pfx ++ (if rest.isEmpty then treeLast else treeConn), nm, c.lockedRef)
      :: (printLines c.inputs (pfx ++ (if rest.isEmpty then treeNull else treeLine))
          ++ printLines rest pfx)
termination_by l _ => sizeOf l
decreasing_by
  all_goals
    have h := LNode.sizeOf_inputs_lt c
    simp at h ⊢
    try omega

/-- A JSON document as produced by the `JSONObject` emitter: an object
with ordered fields, or a string. -/
inductive J where
  | obj (fields : List (String × J))
  | str (s : String)

/-- The JSON fields produced for a node's inputs by the `traverse` lambda
of `CmdFlakeArchive::run`: per input, an object holding first its
`path` attribute, then its own `inputs` object. -/
def jsonInputs : List (String × LNode) → List (String × J)
  | [] => []
  | (nm, c) :: rest =>
    (nm, J.obj [("path", J.str (computeStorePath c)),
                ("inputs", J.obj (jsonInputs c.inputs))])
      :: jsonInputs rest
termination_by l => sizeOf l
decreasing_by
  all_goals
    have h := LNode.sizeOf_inputs_lt c
    simp at h ⊢
    try omega

/-- The whole JSON document of `CmdFlakeArchive::run` (flake.cc lines
640-667): the root object holds the flake's own source path, then the
recursive `inputs` object. -/
def archiveJson (rootSrcPath : String) (root : LNode) : J :=
  J.obj [("path", J.str rootSrcPath), ("inputs", J.obj (jsonInputs root.inputs))]

mutual

/-- Extract from a JSON document the name sequence of the lock tree it
serializes: every field named `inputs` holds the per-input child
objects, whose keys are visited in order. -/
def jInputNames : J → List String
  | .str _ => []
  | .obj fs => jInputNamesFields fs

/-- Field loop of `jInputNames`. -/
def jInputNamesFields : List (String × J) → List String
  | [] => []
  | (k, v) :: rest =>
    (if k = "inputs" then keysDeep v else jInputNames v) ++ jInputNamesFields rest

/-- Keys of an `inputs` object together with the names below each
child, in order. -/
def keysDeep : J → List String
  | .str _ => []
  | .obj fs => keysDeepFields fs

/-- Field loop of `keysDeep`. -/
def keysDeepFields : List (String × J) → List String
  | [] => []
  | (k, v) :: rest => (k :: jInputNames v) ++ keysDeepFields rest

end

/-- The pre-order name sequence of a lock DAG's edges, in input (map)
order. -/
def visitOrder : List (String × LNode) → List String
  | [] => []
  | (nm, c) :: rest => nm :: (visitOrder c.inputs ++ visitOrder rest)
termination_by l => sizeOf l
decreasing_by
  all_goals
    have h := LNode.sizeOf_inputs_lt c
    simp at h ⊢
    try omega

/-- A lock graph with possibly-cyclic sharing, for the termination
analysis: each node identifier maps to its ordered edge list.  The
inductive `LNode` model cannot express a cycle, so the recursion
structure shared by the two walkers (`CmdFlakeListInputs::run` and
`CmdFlakeArchive::run`) is restated over node identifiers. -/
def LockGraph : Type := Nat → List (String × Nat)

mutual

/-- The shared recursion skeleton of the two lock-tree walkers, with
explicit fuel: visiting a node recurses into every child.  `none` means
the recursion depth exceeded the fuel — on an acyclic graph enough fuel
always exists, on a cyclic graph it never does. -/
def travNode (g : LockGraph) : Nat → Nat → Option (List Nat)
  | 0, _ => none
  | fuel + 1, n => travList g fuel (g n)

/-- Child loop of `travNode`: children are visited in edge order and the
visited identifiers are concatenated pre-order. -/
def travList (g : LockGraph) : Nat → List (String × Nat) → Option (List Nat)
  | _, [] => some []
  | fuel, (_, c) :: rest =>
    match travNode g fuel c with
    | none => none
    | some xs =>
      match travList g fuel rest with
      | none => none
      | some ys => some (c :: (xs ++ ys))

end

/-- The one-node cyclic lock graph: the node is its own input. -/
def loopGraph : LockGraph := fun _ => [("self", 0)]

/-- A fixed sample source position for concrete instances. -/
def pz : Pos := ⟨1, 1⟩

/-- A sample derivation-shaped value with a store path. -/
def drvV : Value :=
  .attrs [("type", pz, .str "derivation"), ("drvPath", pz, .str "/nix/store/foo.drv")]

/-- The output categories whose first-level keys are system names. -/
def systemKeyedCats : List String :=
  ["packages", "apps", "checks", "defaultPackage", "devShell", "defaultApp", "legacyPackages"]

/-- The set of store paths reachable by the archive traversal below a
given input list: each child contributes its computed store path and,
recursively, the paths below it. -/
def reachPaths : List (String × LNode) → List String
  | [] => []
  | (_, c) :: rest => computeStorePath c :: (reachPaths c.inputs ++ reachPaths rest)
termination_by l => sizeOf l
decreasing_by
  all_goals
    have h := LNode.sizeOf_inputs_lt c
    simp at h ⊢
    try omega

/-- A two-node acyclic lock graph used as a concrete instance. -/
def sampleGraph : LockGraph := fun n => if n = 0 then [("a", 1)] else []

/-- A height certificate for `sampleGraph`. -/
def sampleHeight : Nat → Nat := fun n => if n = 0 then 1 else 0

/-- C1: for a `checks.<sys>.<name>` entry bound to a derivation-shaped
value, `validate` adds that derivation to the artifact set exactly once
when `<sys>` equals the current evaluation system and zero times when it
is any other system, while the derivation-shape check is performed and
passes in both cases (the outcome carries no error). -/
theorem checks_current_system_artifact
    (thisSystem sysName n2 : String) (pos p1 p2 : Pos) (v : Value) (p : String)
    (hsys : sysName.data.contains '-' = true)
    (hdrv : isDerivation v = true)
    (hpath : getDrvPath v = some p) :
    checkOneOutput thisSystem "checks"
        (.attrs [(sysName, p1, .attrs [(n2, p2, v)])]) pos
      = ((if sysName = thisSystem then [p] else []), none) := by
  have hsys2 : '-' ∈ sysName.data := by simpa using hsys
  simp [checkOneOutput, checksSystems, checksInner, checkDerivation, checkSystemName,
        hsys2, hdrv, hpath, wrapErr]

/-- Witness for `checks_current_system_artifact` at a concrete
derivation under the current system. -/
theorem checks_current_system_artifact_witness :
    checkOneOutput "x86_64-linux" "checks"
        (.attrs [("x86_64-linux", pz, .attrs [("t", pz, drvV)])]) pz
      = (["/nix/store/foo.drv"], none) := by
  simpa using checks_current_system_artifact "x86_64-linux" "x86_64-linux" "t" pz pz pz drvV
    "/nix/store/foo.drv" (by decide) (by decide) (by decide)

/-- C3: for every system-keyed category, `checkSystemName` passes iff the
key contains a hyphen, and a first-level key without a hyphen makes the
category checker fail with the invalid-system error at that key's source
position (wrapped in the output frame). -/
theorem system_name_hyphen_check :
    (∀ system pos, checkSystemName system pos = none ↔ system.data.contains '-' = true)
    ∧ (∀ cat ∈ systemKeyedCats, ∀ thisSystem key pos v rest p0,
        key.data.contains '-' = false →
        (checkOneOutput thisSystem cat (.attrs ((key, pos, v) :: rest)) p0).2
          = some ⟨.invalidSystem key pos, [.output cat]⟩) := by
  constructor
  · intro system pos
    by_cases h : '-' ∈ system.data <;> simp [checkSystemName, h]
  · intro cat hcat thisSystem key pos v rest p0 hkey
    have hkey2 : '-' ∉ key.data := by simpa using hkey
    simp only [systemKeyedCats, List.mem_cons, List.mem_singleton, List.not_mem_nil,
      or_false] at hcat
    rcases hcat with h | h | h | h | h | h | h <;> subst h <;>
      simp [checkOneOutput, checksSystems, packagesSystems, appsSystems, singleDrvSystems,
            defaultAppSystems, legacySystems, checkSystemName, hkey2, wrapErr, Err.addFrame]

/-- Witness for `system_name_hyphen_check`: a hyphenated key passes the
system check and a non-hyphenated key fails the packages category. -/
theorem system_name_hyphen_check_witness :
    checkSystemName "x86_64-linux" pz = none
    ∧ (checkOneOutput "sys-a" "packages" (.attrs [("foo", pz, .other)]) pz).2
        = some ⟨.invalidSystem "foo" pz, [.output "packages"]⟩ :=
  ⟨(system_name_hyphen_check.1 "x86_64-linux" pz).mpr (by decide),
   system_name_hyphen_check.2 "packages" (by simp [systemKeyedCats]) "sys-a" "foo" pz .other [] pz
     (by decide)⟩

/-- C4: an overlay that is a lambda whose argument is not `final` (or
that pattern-matches an attribute set) fails with the `final` error; one
whose argument is `final` but whose body is not a plain lambda with
argument `prev` fails with the `prev` error; the well-formed nested
two-lambda shape passes and contributes zero artifacts. -/
theorem overlay_shape_check :
    (∀ ap pos ma el arg body, (ma = true ∨ arg ≠ "final") →
        checkOverlay ap (.lam ma el arg body) pos
          = some ⟨.overlayFinal, [.overlay ap pos]⟩)
    ∧ (∀ ap pos el body,
        (∀ bma bel barg bb, body = .lam bma bel barg bb → (bma = true ∨ barg ≠ "prev")) →
        checkOverlay ap (.lam false el "final" body) pos
          = some ⟨.overlayPrev, [.overlay ap pos]⟩)
    ∧ (∀ thisSystem pos el el2 body2,
        checkOneOutput thisSystem "overlay"
            (.lam false el "final" (.lam false el2 "prev" body2)) pos
          = ([], none)) := by
  refine ⟨?_, ?_, ?_⟩
  · intro ap pos ma el arg body h
    rcases h with h | h
    · subst h; simp [checkOverlay]
    · simp [checkOverlay, h]
  · intro ap pos el body h
    cases body with
    | lam bma bel barg bb =>
      rcases h bma bel barg bb rfl with h | h
      · subst h; simp [checkOverlay]
      · simp [checkOverlay, h]
    | other => simp [checkOverlay]
  · intro thisSystem pos el el2 body2
    simp [checkOneOutput, checkOverlay, wrapErr]

/-- Witness for `overlay_shape_check`: a wrong outer argument name gives
the `final` error, and a non-lambda body after `final` gives the `prev`
error. -/
theorem overlay_shape_check_witness :
    checkOverlay "overlay" (.lam false false "x" .other) pz
        = some ⟨.overlayFinal, [.overlay "overlay" pz]⟩
    ∧ checkOverlay "overlay" (.lam false false "final" .other) pz
        = some ⟨.overlayPrev, [.overlay "overlay" pz]⟩ :=
  ⟨overlay_shape_check.1 "overlay" pz false false "x" .other (Or.inr (by decide)),
   overlay_shape_check.2.1 "overlay" pz false .other (fun _ _ _ _ h => nomatch h)⟩

/-- C5: a `hydraJobs` value that is itself derivation-shaped at the top
level fails with the top-level-derivation error; a derivation nested one
level below a named job passes the hydraJobs category with zero
artifacts; and a non-derivation attribute-set child is recursed into
under the extended jobset path. -/
theorem hydra_jobs_check :
    (∀ ap pos as, isDerivation (.attrs as) = true →
        checkHydraJobs ap (.attrs as) pos = some ⟨.jobsetTopLevelDrv, [.hydra ap pos]⟩)
    ∧ (∀ thisSystem pos n p as, isDerivation (.attrs as) = true →
        checkOneOutput thisSystem "hydraJobs" (.attrs [(n, p, .attrs as)]) pos = ([], none))
    ∧ (∀ ap pos n p w, isAttrs w = true → isDerivation w = false →
        checkHydraJobs ap (.attrs [(n, p, w)]) pos
          = wrapErr (.hydra ap pos) (checkHydraJobs (ap ++ "." ++ n) w p)) := by
  refine ⟨?_, ?_, ?_⟩
  · intro ap pos as h
    simp [checkHydraJobs, h, wrapErr, Err.addFrame]
  · intro thisSystem pos n p as h
    have houter : isDerivation (.attrs [(n, p, .attrs as)]) = false := by
      simp [isDerivation, attrLookup]
    simp [checkOneOutput, checkHydraJobs, checkHydraJobsAttrs, houter, h, isAttrs, wrapErr]
  · intro ap pos n p w hw hnd
    have houter : isDerivation (.attrs [(n, p, w)]) = false := by
      cases w <;> simp_all [isDerivation, attrLookup, isAttrs]
    simp [checkHydraJobs, checkHydraJobsAttrs, houter, hw, hnd]
    cases checkHydraJobs (ap ++ "." ++ n) w p <;> simp [wrapErr]

/-- Witness for `hydra_jobs_check`: a top-level derivation-shaped jobset
fails. -/
theorem hydra_jobs_check_witness :
    checkHydraJobs "hydraJobs"
        (.attrs [("type", pz, .str "derivation"), ("drvPath", pz, .str "/nix/store/foo.drv")]) pz
      = some ⟨.jobsetTopLevelDrv, [.hydra "hydraJobs" pz]⟩ :=
  hydra_jobs_check.1 "hydraJobs" pz _ (by decide)

/-- C9: with the build flag off, the run sets read-only mode and never
invokes the batch builder; with the build flag on and a non-empty
artifact set from a successful validation, the batch builder is invoked
exactly once with that set. -/
theorem build_flag_behavior :
    (∀ thisSystem outputs,
        (flakeCheckRun false thisSystem outputs).readOnlyMode = true
        ∧ (flakeCheckRun false thisSystem outputs).buildCalls = [])
    ∧ (∀ thisSystem outputs arts,
        validateOutputs thisSystem outputs = (arts, none) → arts ≠ [] →
        (flakeCheckRun true thisSystem outputs).buildCalls = [arts]) := by
  constructor
  · intro thisSystem outputs
    refine ⟨rfl, ?_⟩
    cases h : (validateOutputs thisSystem outputs).2 <;> simp [flakeCheckRun, h]
  · intro thisSystem outputs arts hval hne
    simp [flakeCheckRun, hval, List.isEmpty_iff, hne]

/-- Witness for `build_flag_behavior` at a no-build run and at a build
run with one collected artifact. -/
theorem build_flag_behavior_witness :
    (flakeCheckRun false "x86_64-linux" []).readOnlyMode = true
    ∧ (flakeCheckRun true "x86_64-linux"
        [("checks", pz, .attrs [("x86_64-linux", pz, .attrs [("t", pz, drvV)])])]).buildCalls
      = [["/nix/store/foo.drv"]] :=
  ⟨(build_flag_behavior.1 "x86_64-linux" []).1,
   build_flag_behavior.2 "x86_64-linux" _ ["/nix/store/foo.drv"] (by decide) (by decide)⟩

/-- C10: every category other than `checks`, `apps` and `defaultApp`
contributes no artifacts; in particular `packages`, `defaultPackage`
and `devShell` discard their derivation-shape check results. -/
theorem artifact_sources_only_checks_and_apps
    (thisSystem name : String) (v : Value) (pos : Pos)
    (h1 : name ≠ "checks") (h2 : name ≠ "apps") (h3 : name ≠ "defaultApp") :
    (checkOneOutput thisSystem name v pos).1 = [] := by
  cases v <;> simp [checkOneOutput, h1, h2, h3] <;> split_ifs <;> simp

/-- Witness for `artifact_sources_only_checks_and_apps`: a current-system
derivation under `packages` adds nothing. -/
theorem artifact_sources_only_checks_and_apps_witness :
    (checkOneOutput "x86_64-linux" "packages"
        (.attrs [("x86_64-linux", pz, .attrs [("t", pz, drvV)])]) pz).1 = [] :=
  artifact_sources_only_checks_and_apps "x86_64-linux" "packages" _ pz
    (by decide) (by decide) (by decide)

/-- C2 counterexample: with a failing `overlay` output followed by a
`checks` output holding a current-system derivation, the whole validation
returns only the overlay error and no artifacts, although validating the
`checks` sibling alone yields its artifact — the sibling category is not
attempted after the first fatal error, refuting the claim that every
sibling top-level category is still traversed. -/
theorem validator_sibling_abort_cex :
    validateOutputs "x86_64-linux"
        [("overlay", pz, .other),
         ("checks", pz, .attrs [("x86_64-linux", pz, .attrs [("t", pz, drvV)])])]
      = ([], some ⟨.overlayFinal, [.output "overlay", .overlay "overlay" pz]⟩)
    ∧ validateOutputs "x86_64-linux"
        [("checks", pz, .attrs [("x86_64-linux", pz, .attrs [("t", pz, drvV)])])]
      = (["/nix/store/foo.drv"], none) := by
  constructor <;> decide

/-- C2 amended: the enumerate-outputs loop is fail-fast across top-level
categories: when validating a leading segment of the outputs already
fails, appending further sibling categories changes nothing — they are
never attempted and the first error (with its artifacts so far) is the
whole result. -/
theorem validator_fail_fast (thisSystem : String)
    (l1 l2 : List (String × Pos × Value)) (a : List String) (e : Err)
    (h : validateOutputs thisSystem l1 = (a, some e)) :
    validateOutputs thisSystem (l1 ++ l2) = (a, some e) := by
  induction l1 generalizing a with
  | nil => simp [validateOutputs] at h
  | cons x xs ih =>
    obtain ⟨name, pos, v⟩ := x
    rw [List.cons_append]
    rw [validateOutputs] at h ⊢
    revert h
    cases hc : checkOneOutput thisSystem name v pos with
    | mk arts err =>
      intro h
      cases err with
      | some e2 => simpa using h
      | none =>
        rcases hv : validateOutputs thisSystem xs with ⟨a2, e2⟩
        rw [hv] at h
        simp at h
        obtain ⟨ha, he⟩ := h
        subst he
        rw [ih a2 hv]
        simp [ha]

/-- Witness for `validator_fail_fast`: a failing overlay output absorbs a
trailing checks sibling. -/
theorem validator_fail_fast_witness :
    validateOutputs "x86_64-linux"
        ([("overlay", pz, Value.other)]
          ++ [("checks", pz, .attrs [("x86_64-linux", pz, .attrs [("t", pz, drvV)])])])
      = ([], some ⟨.overlayFinal, [.output "overlay", .overlay "overlay" pz]⟩) :=
  validator_fail_fast "x86_64-linux" _ _ _ _ (by decide)

/-- Membership in the result of a deduplicating insert. -/
theorem mem_insertPath (acc : List String) (p q : String) :
    q ∈ insertPath acc p ↔ q ∈ acc ∨ q = p := by
  unfold insertPath
  split
  · rename_i h
    constructor
    · exact Or.inl
    · rintro (hq | rfl) <;> assumption
  · simp [List.mem_append]

/-- A deduplicating insert preserves the no-duplicates invariant. -/
theorem insertPath_nodup (acc : List String) (p : String) (h : acc.Nodup) :
    (insertPath acc p).Nodup := by
  unfold insertPath
  split
  · exact h
  · rename_i hp
    simp [List.nodup_append, h, hp]

/-- The archive traversal preserves the no-duplicates invariant of the
source set. -/
theorem collectList_nodup : ∀ l acc, acc.Nodup → (collectList l acc).Nodup := by
  intro l acc
  induction l, acc using collectList.induct with
  | case1 => intro h; simpa [collectList]
  | case2 nm c rest acc ih1 ih2 =>
    intro h
    rw [collectList]
    exact ih2 (ih1 (insertPath_nodup _ _ h))

/-- The archive traversal collects exactly the initial set plus the store
paths reachable below the input list. -/
theorem mem_collectList_iff : ∀ l acc q,
    q ∈ collectList l acc ↔ q ∈ acc ∨ q ∈ reachPaths l := by
  intro l acc
  induction l, acc using collectList.induct with
  | case1 => intro q; simp [collectList, reachPaths]
  | case2 nm c rest acc ih1 ih2 =>
    intro q
    rw [collectList, reachPaths]
    rw [ih2, ih1, mem_insertPath]
    simp only [List.mem_cons, List.mem_append]
    tauto

/-- A direct child's computed store path is reachable. -/
theorem mem_reachPaths_child (l : List (String × LNode)) (nm : String) (d : LNode)
    (h : (nm, d) ∈ l) : computeStorePath d ∈ reachPaths l := by
  induction l with
  | nil => cases h
  | cons x rest ih =>
    obtain ⟨nm2, c⟩ := x
    rw [reachPaths]
    rcases List.mem_cons.mp h with heq | hrest
    · obtain ⟨rfl, rfl⟩ := Prod.mk.injEq .. ▸ heq
      exact List.mem_cons_self _ _
    · exact List.mem_cons_of_mem _ (List.mem_append_right _ (ih hrest))

/-- Paths reachable below a child are reachable below its parent list. -/
theorem mem_reachPaths_sub (l : List (String × LNode)) (nm : String) (d : LNode)
    (q : String) (h : (nm, d) ∈ l) (hq : q ∈ reachPaths d.inputs) :
    q ∈ reachPaths l := by
  induction l with
  | nil => cases h
  | cons x rest ih =>
    obtain ⟨nm2, c⟩ := x
    rw [reachPaths]
    rcases List.mem_cons.mp h with heq | hrest
    · obtain ⟨rfl, rfl⟩ := Prod.mk.injEq .. ▸ heq
      exact List.mem_cons_of_mem _ (List.mem_append_left _ hq)
    · exact List.mem_cons_of_mem _ (List.mem_append_right _ (ih hrest))

/-- C6: in a lock DAG in which two distinct parent inputs of the root
share the same child node, the archive run's collected source set
contains that child's computed store path exactly once — the result is a
deduplicating set keyed by store path, not a list with repetitions. -/
theorem archive_dedup_shared_child
    (rp nm1 nm2 m1 m2 : String) (root p1 p2 c : LNode)
    (h1 : (nm1, p1) ∈ root.inputs) (h2 : (nm2, p2) ∈ root.inputs)
    (hc1 : (m1, c) ∈ p1.inputs) (hc2 : (m2, c) ∈ p2.inputs)
    (hne : p1 ≠ p2) :
    (archiveRun rp root).count (computeStorePath c) = 1 := by
  apply List.count_eq_one_of_mem
  · apply collectList_nodup
    apply insertPath_nodup
    exact List.nodup_nil
  · rw [archiveRun, mem_collectList_iff]
    exact Or.inr (mem_reachPaths_sub _ _ _ _ h1 (mem_reachPaths_child _ _ _ hc1))

/-- Witness for `archive_dedup_shared_child` on a diamond DAG whose two
parents share one child node. -/
theorem archive_dedup_shared_child_witness :
    (archiveRun "/nix/store/src"
        (.mk "root"
          [("a", .mk "p1" [("c1", .mk "c" [])]),
           ("b", .mk "p2" [("c2", .mk "c" [])])])).count
        (computeStorePath (.mk "c" [])) = 1 :=
  archive_dedup_shared_child "/nix/store/src" "a" "b" "c1" "c2"
    (.mk "root"
      [("a", .mk "p1" [("c1", .mk "c" [])]),
       ("b", .mk "p2" [("c2", .mk "c" [])])])
    (.mk "p1" [("c1", .mk "c" [])]) (.mk "p2" [("c2", .mk "c" [])]) (.mk "c" [])
    (by simp [LNode.inputs]) (by simp [LNode.inputs])
    (by simp [LNode.inputs]) (by simp [LNode.inputs])
    (by simp)

/-- The name sequence of the printed tree is the pre-order visit order of
the input maps. -/
theorem printLines_names : ∀ (l : List (String × LNode)) (pfx : String),
    (printLines l pfx).map (fun t => t.2.1) = visitOrder l := by
  intro l pfx
  induction l, pfx using printLines.induct with
  | case1 => simp [printLines, visitOrder]
  | case2 nm c rest pfx ih1 ih2 =>
    rw [printLines, visitOrder]
    simp only [List.map_cons, List.map_append]
    simp only [dite_eq_ite] at ih1
    rw [ih1, ih2]

/-- The name sequence of the JSON serialization is the pre-order visit
order of the input maps. -/
theorem jsonInputs_names : ∀ l : List (String × LNode),
    keysDeepFields (jsonInputs l) = visitOrder l := by
  intro l
  induction l using jsonInputs.induct with
  | case1 => simp [jsonInputs, keysDeepFields, visitOrder]
  | case2 nm c rest ih1 ih2 =>
    rw [jsonInputs, visitOrder, keysDeepFields]
    rw [jInputNames, jInputNamesFields, jInputNamesFields, jInputNamesFields]
    simp [keysDeep, jInputNames, ih1, ih2]

/-- C7: the JSON serialization of `CmdFlakeArchive::run` and the printed
tree of `CmdFlakeListInputs::run` visit every node's children in the
same order — the input map's stored order — and on a root with children
`a` then `b` both emit `a` before `b`. -/
theorem lock_traversal_order_agree :
    (∀ rp root, jInputNames (archiveJson rp root)
        = (printLines root.inputs "").map (fun t => t.2.1))
    ∧ jInputNames (archiveJson "/nix/store/src"
          (.mk "root" [("a", .mk "x" []), ("b", .mk "y" [])]))
        = ["a", "b"]
    ∧ (printLines (LNode.mk "root" [("a", .mk "x" []), ("b", .mk "y" [])]).inputs "").map
          (fun t => t.2.1)
        = ["a", "b"] := by
  have key : ∀ rp root, jInputNames (archiveJson rp root)
      = (printLines root.inputs "").map (fun t => t.2.1) := by
    intro rp root
    rw [printLines_names]
    rw [archiveJson, jInputNames, jInputNamesFields, jInputNamesFields, jInputNamesFields]
    simp [jInputNames, keysDeep, jsonInputs_names]
  refine ⟨key, ?_, ?_⟩
  · rw [key]
    simp [LNode.inputs, printLines, treeLast, treeConn, LNode.lockedRef]
  · simp [LNode.inputs, printLines, treeLast, treeConn, LNode.lockedRef]

/-- With enough fuel, the traversal of a lock graph equipped with a
height certificate (a strictly decreasing measure along edges, i.e. an
acyclicity witness) completes. -/
theorem travNode_total (g : LockGraph) (ht : Nat → Nat)
    (hg : ∀ m nm c, (nm, c) ∈ g m → ht c < ht m) :
    ∀ fuel n, ht n < fuel → ∃ r, travNode g fuel n = some r := by
  intro fuel
  induction fuel with
  | zero => intro n hn; omega
  | succ fuel ih =>
    intro n hn
    have hl : ∀ l, (∀ nm c, (nm, c) ∈ l → ht c < fuel) →
        ∃ r, travList g fuel l = some r := by
      intro l
      induction l with
      | nil => intro _; exact ⟨[], by simp [travList]⟩
      | cons x xs ihl =>
        intro hx
        obtain ⟨nm, c⟩ := x
        obtain ⟨r1, hr1⟩ := ih c (hx nm c (by simp))
        obtain ⟨r2, hr2⟩ := ihl (fun nm2 c2 hm => hx nm2 c2 (by simp [hm]))
        exact ⟨c :: (r1 ++ r2), by simp [travList, hr1, hr2]⟩
    have hchild : ∀ nm c, (nm, c) ∈ g n → ht c < fuel := by
      intro nm c hm
      have := hg n nm c hm
      omega
    obtain ⟨r, hr⟩ := hl (g n) hchild
    exact ⟨r, by simp [travNode, hr]⟩

/-- C8: on a lock graph with an acyclicity certificate the recursive
traversal terminates (fuel one beyond the height suffices), while on the
cyclic one-node graph no amount of fuel completes the recursion — the
walkers carry no visited-node guard. -/
theorem lock_traversal_termination :
    (∀ (g : LockGraph) (ht : Nat → Nat),
        (∀ m nm c, (nm, c) ∈ g m → ht c < ht m) →
        ∀ n, ∃ r, travNode g (ht n + 1) n = some r)
    ∧ (∀ fuel, travNode loopGraph fuel 0 = none) := by
  constructor
  · intro g ht hg n
    exact travNode_total g ht hg (ht n + 1) n (by omega)
  · intro fuel
    induction fuel with
    | zero => simp [travNode]
    | succ fuel ih => simp [travNode, travList, loopGraph, ih]

/-- Witness for `lock_traversal_termination` on a concrete two-node
acyclic graph with its height certificate. -/
theorem lock_traversal_termination_witness :
    ∃ r, travNode sampleGraph (sampleHeight 0 + 1) 0 = some r :=
  lock_traversal_termination.1 sampleGraph sampleHeight
    (by
      intro m nm c hm
      by_cases hm0 : m = 0
      · subst hm0
        simp [sampleGraph] at hm
        obtain ⟨rfl, rfl⟩ := hm
        simp [sampleHeight]
      · simp [sampleGraph, hm0] at hm)
    0
